import Mathlib

/-!
A verification development for the CTI link-collector core
(`src/collector/link_collector.py`).  Pure helpers (URL-path date
inference, date-string parsing, calendar validation, domain matching,
output sorting/rendering) are embedded as executable Lean functions.
The effectful crawl loops (`_process_single_site`, `_enrich_dates`,
`_collect_load_more_site`, `_collect_paginated_site_parallel`,
`_save_urls_by_section`) are embedded as state-passing functions over
explicit oracles for the browser engine (page fetches, button clicks,
page-metadata date extraction), with asyncio cooperative interleaving
modelled as an explicit schedule of atomic segments between suspension
points.
-/

/-! ## Generic string helpers (models of Python `str` operations) -/

/-- Digit value of an ASCII digit character. -/
def dval (c : Char) : Nat := c.toNat - '0'.toNat

/-- Does the character list `pre` occur at the start of `hay`?
Model of Python `str.startswith` restricted to list-of-char form. -/
def listStarts : List Char → List Char → Bool
  | _, [] => true
  | [], _ :: _ => false
  | a :: as, b :: bs => a == b && listStarts as bs

/-- Does `needle` occur as a contiguous substring of `hay`?
Model of the Python `needle in hay` test on strings. -/
def listContainsSub : List Char → List Char → Bool
  | [], needle => needle.isEmpty
  | a :: rest, needle => listStarts (a :: rest) needle || listContainsSub rest needle

/-- Python `needle in hay` on `String`s. -/
def strContainsSub (hay needle : String) : Bool :=
  listContainsSub hay.toList needle.toList

/-- Python `s.startswith(pre)` on `String`s. -/
def strStartsWith (s pre : String) : Bool :=
  listStarts s.toList pre.toList

/-- The whitespace characters stripped by Python `str.strip()`. -/
def pyIsSpace (c : Char) : Bool :=
  c == ' ' || c == '\t' || c == '\n' || c == '\r' || c == '\x0b' || c == '\x0c'

/-- Python `s.strip()`. -/
def pyStrip (s : String) : String :=
  String.mk (((s.toList.dropWhile pyIsSpace).reverse.dropWhile pyIsSpace).reverse)

/-- Python `s.lower()`, restricted to ASCII letters. -/
def pyLower (s : String) : String :=
  String.mk (s.toList.map Char.toLower)

/-- Truthiness of Python `s.strip()`: `True` iff `s` has a
non-whitespace character. -/
def pyStripNonempty (s : String) : Bool :=
  s.toList.any (fun c => !(pyIsSpace c))

/-! ## Naive datetimes (model of Python `datetime.datetime` values)

A parsed datetime is kept timezone-naive by the source (`.replace(tzinfo=None)`
everywhere), so a value is four natural numbers: year, month, day and the
time of day packed as microseconds since midnight (the packing is
order-preserving because the time components are validated to their
calendar ranges before packing). -/

structure PyDateTime where
  y : Nat
  m : Nat
  d : Nat
  tod : Nat
deriving Repr, DecidableEq

/-- Lexicographic `≤` on naive datetimes: the model of comparing two
Python `datetime` values. -/
def dtLe (a b : PyDateTime) : Bool :=
  decide (a.y < b.y) ||
    (a.y == b.y && (decide (a.m < b.m) ||
      (a.m == b.m && (decide (a.d < b.d) ||
        (a.d == b.d && decide (a.tod ≤ b.tod))))))

/-- Days in a month, with the Gregorian leap rule
(model of the validation inside `datetime.datetime(...)`). -/
def daysInMonth (y m : Nat) : Nat :=
  if m == 2 then (if y % 4 == 0 && (y % 100 != 0 || y % 400 == 0) then 29 else 28)
  else if m == 4 || m == 6 || m == 9 || m == 11 then 30
  else 31

/-- Model of the Python `datetime.datetime(y, mo, d, ...)` constructor:
`some` on a valid calendar date (year 1–9999), `none` where Python
raises `ValueError`. -/
def mkDatetime (y mo d tod : Nat) : Option PyDateTime :=
  if 1 ≤ y && y ≤ 9999 && 1 ≤ mo && mo ≤ 12 && 1 ≤ d && d ≤ daysInMonth y mo
  then some ⟨y, mo, d, tod⟩ else none

/-- `LinkCollector._safe_dt`: construct a datetime at midnight, `none`
instead of an exception on an invalid calendar date. -/
def safe_dt (y mo d : Nat) : Option PyDateTime := mkDatetime y mo d 0

/-! ## `urlparse(...).netloc` (model of the Python standard library)

Modelled from the Python standard library `urllib.parse.urlparse`,
restricted to its netloc extraction: an optional `scheme:` prefix
(an ASCII letter followed by letters, digits, `+`, `-`, `.`) is dropped,
then if the remainder starts with `//` the netloc is the run of
characters up to the next `/`, `?` or `#`; otherwise the netloc is
empty.  (Bracketed IPv6 error handling is not modelled.) -/

def schemeChar (c : Char) : Bool :=
  c.isAlphanum || c == '+' || c == '-' || c == '.'

def dropScheme (cs : List Char) : List Char :=
  match cs.findIdx? (· == ':') with
  | some i =>
    if 0 < i && (cs.take i).all schemeChar
        && (match cs.head? with | some c => c.isAlpha | none => false)
    then cs.drop (i + 1) else cs
  | none => cs

def netloc (url : String) : String :=
  match dropScheme url.toList with
  | '/' :: '/' :: rest =>
      String.mk (rest.takeWhile (fun c => !(c == '/' || c == '?' || c == '#')))
  | _ => ""

/-! ## Domain matcher (`LinkCollector._is_link_from_domain`) -/

/-- The alias table of `_is_link_from_domain`, in Python dict insertion
order (dict iteration order is insertion order). -/
def domain_mapping : List (String × List String) :=
  [ ("asec.ahnlab.com", ["asec.ahnlab.com"]),
    ("www.fortinet.com", ["www.fortinet.com", "fortinet.com"]),
    ("fortinet.com", ["www.fortinet.com", "fortinet.com"]),
    ("research.checkpoint.com", ["research.checkpoint.com"]),
    ("checkpoint.com", ["research.checkpoint.com", "checkpoint.com"]),
    ("thedfirreport.com", ["thedfirreport.com"]),
    ("www.genians.co.kr", ["www.genians.co.kr", "genians.co.kr"]),
    ("genians.co.kr", ["www.genians.co.kr", "genians.co.kr"]) ]

/-- First table entry whose key is a substring of the expected domain
(the Python loop returns on the first `domain_key in expected_domain` hit). -/
def findAliasKey (expected : String) : Option (List String) :=
  match domain_mapping.find? (fun e => strContainsSub expected e.1) with
  | some e => some e.2
  | none => none

/-- `LinkCollector._is_link_from_domain`: strict alias-set membership
when the expected domain contains a table key, otherwise the loose
equality/substring fallback. -/
def is_link_from_domain (link : String) (expected_domain : String) : Bool :=
  let link_domain := pyLower (netloc link)
  let expected := pyLower expected_domain
  match findAliasKey expected with
  | some allowed => allowed.contains link_domain
  | none =>
      expected == link_domain ||
      strContainsSub link_domain expected ||
      strContainsSub expected link_domain

/-! ## URL-path date inference (`LinkCollector._date_from_url`)

The two `re.search` patterns are embedded as leftmost-match scanners
over the character list.  Each numeric segment `[01]?\d` / `[0-3]?\d`
first tries the greedy two-character alternative (first character in
the class, second any ASCII digit, then the required separator) and
falls back to the one-character alternative (any digit, then the
separator); when a two-character segment together with its following
separator matches, the one-character alternative cannot (the second
character would have to be both a digit and the separator), so no
further backtracking arises. -/

/-- Match `[X]?\d` followed by a separator, returning the value and the
characters after the separator. -/
def segParse (firstOk sepOk : Char → Bool) : List Char → Option (Nat × List Char)
  | a :: b :: c :: rest =>
      if firstOk a && b.isDigit && sepOk c then some (10 * dval a + dval b, rest)
      else if a.isDigit && sepOk b then some (dval a, c :: rest)
      else none
  | [a, b] => if a.isDigit && sepOk b then some (dval a, []) else none
  | _ => none

def monthFirst (c : Char) : Bool := c == '0' || c == '1'

def dayFirst (c : Char) : Bool := '0' ≤ c && c ≤ '3'

def dashDotSlash (c : Char) : Bool := c == '-' || c == '.' || c == '/'

/-- Try `/(20\d{2})/([01]?\d)/([0-3]?\d)/` at the head of the list. -/
def matchSlashDate (cs : List Char) : Option (Nat × Nat × Nat) :=
  match cs with
  | '/' :: '2' :: '0' :: y3 :: y4 :: '/' :: rest =>
      if y3.isDigit && y4.isDigit then
        match segParse monthFirst (· == '/') rest with
        | some (mo, rest2) =>
            match segParse dayFirst (· == '/') rest2 with
            | some (dy, _) => some (2000 + 10 * dval y3 + dval y4, mo, dy)
            | none => none
        | none => none
      else none
  | _ => none

/-- Try `/(20\d{2})[-./]([01]?\d)[-./]([0-3]?\d)/` at the head of the list. -/
def matchSepDate (cs : List Char) : Option (Nat × Nat × Nat) :=
  match cs with
  | '/' :: '2' :: '0' :: y3 :: y4 :: s1 :: rest =>
      if y3.isDigit && y4.isDigit && dashDotSlash s1 then
        match segParse monthFirst dashDotSlash rest with
        | some (mo, rest2) =>
            match segParse dayFirst (· == '/') rest2 with
            | some (dy, _) => some (2000 + 10 * dval y3 + dval y4, mo, dy)
            | none => none
        | none => none
      else none
  | _ => none

/-- Leftmost match of a head-matcher, as `re.search` does. -/
def searchFirst (f : List Char → Option (Nat × Nat × Nat)) : List Char → Option (Nat × Nat × Nat)
  | [] => none
  | c :: rest =>
      match f (c :: rest) with
      | some r => some r
      | none => searchFirst f rest

/-- `LinkCollector._date_from_url`: infer a date from the URL path.
When a pattern matches, `_safe_dt` of the captured triple is returned
even if it is `none` (the source returns without trying the next
pattern), exactly as in the code. -/
def date_from_url (url : String) : Option PyDateTime :=
  let u := (pyLower url).toList
  match searchFirst matchSlashDate u with
  | some (y, mo, d) => safe_dt y mo d
  | none =>
      match searchFirst matchSepDate u with
      | some (y, mo, d) => safe_dt y mo d
      | none => none

/-! ## `datetime.fromisoformat` (model of the Python standard library)

Modelled from the Python (pre-3.11) standard library
`datetime.fromisoformat`, restricted to an all-digit `YYYY-MM-DD` date
part, one arbitrary separator character, a `HH[:MM[:SS[.fff[fff]]]]`
time part and an optional `+HH:MM` / `-HH:MM[:SS]` offset whose value
is discarded (the source drops `tzinfo` without conversion). -/

def digits2 : List Char → Option (Nat × List Char)
  | a :: b :: rest => if a.isDigit && b.isDigit then some (10 * dval a + dval b, rest) else none
  | _ => none

/-- Time-of-day part `HH[:MM[:SS[.fff[fff]]]]` to microseconds, with
calendar-range validation as in `datetime.time`. -/
def parseTimeCore (cs : List Char) : Option Nat :=
  match cs with
  | [h1, h2] =>
      if h1.isDigit && h2.isDigit && 10 * dval h1 + dval h2 ≤ 23
      then some ((10 * dval h1 + dval h2) * 3600000000) else none
  | [h1, h2, ':', m1, m2] =>
      match parseTimeCore [h1, h2] with
      | some hh =>
          if m1.isDigit && m2.isDigit && 10 * dval m1 + dval m2 ≤ 59
          then some (hh + (10 * dval m1 + dval m2) * 60000000) else none
      | none => none
  | h1 :: h2 :: ':' :: m1 :: m2 :: ':' :: s1 :: s2 :: rest =>
      match parseTimeCore [h1, h2, ':', m1, m2] with
      | some hm =>
          if s1.isDigit && s2.isDigit && 10 * dval s1 + dval s2 ≤ 59 then
            let sec := hm + (10 * dval s1 + dval s2) * 1000000
            match rest with
            | [] => some sec
            | '.' :: fs =>
                if fs.length == 3 && fs.all Char.isDigit then
                  some (sec + 1000 * fs.foldl (fun a c => 10 * a + dval c) 0)
                else if fs.length == 6 && fs.all Char.isDigit then
                  some (sec + fs.foldl (fun a c => 10 * a + dval c) 0)
                else none
            | _ => none
          else none
      | none => none
  | _ => none

/-- Split the time string at the first `-`, else the first `+`
(offset detection of `_parse_isoformat_time`). -/
def splitTz (cs : List Char) : List Char × Option (List Char) :=
  if cs.contains '-' then
    (cs.takeWhile (· != '-'), some ((cs.dropWhile (· != '-')).drop 1))
  else if cs.contains '+' then
    (cs.takeWhile (· != '+'), some ((cs.dropWhile (· != '+')).drop 1))
  else (cs, none)

/-- Offset shape `HH:MM[:SS]` (value discarded). -/
def tzShapeOk (cs : List Char) : Bool :=
  match cs with
  | [h1, h2, ':', m1, m2] =>
      h1.isDigit && h2.isDigit && m1.isDigit && m2.isDigit
  | [h1, h2, ':', m1, m2, ':', s1, s2] =>
      h1.isDigit && h2.isDigit && m1.isDigit && m2.isDigit && s1.isDigit && s2.isDigit
  | _ => false

def parseIsoTime (cs : List Char) : Option Nat :=
  match splitTz cs with
  | (core, none) => parseTimeCore core
  | (core, some tz) => if tzShapeOk tz then parseTimeCore core else none

def fromisoformat (s : String) : Option PyDateTime :=
  match s.toList with
  | y1 :: y2 :: y3 :: y4 :: '-' :: m1 :: m2 :: '-' :: d1 :: d2 :: rest =>
      if y1.isDigit && y2.isDigit && y3.isDigit && y4.isDigit
          && m1.isDigit && m2.isDigit && d1.isDigit && d2.isDigit then
        let y := 1000 * dval y1 + 100 * dval y2 + 10 * dval y3 + dval y4
        let mo := 10 * dval m1 + dval m2
        let dy := 10 * dval d1 + dval d2
        match rest with
        | [] => mkDatetime y mo dy 0
        | _ :: timeCs =>
            match parseIsoTime timeCs with
            | some tod => mkDatetime y mo dy tod
            | none => none
      else none
  | _ => none

/-! ## Generic date-string parsing (`LinkCollector._parse_date_string`)

The source first tries `dateutil` when that optional dependency is
importable; the fallback chain below is the code's own deterministic
path (`HAVE_DATEUTIL = False`). -/

/-- Replace every `Z` by `+00:00`: `s.replace("Z", "+00:00")`. -/
def replaceZ : List Char → List Char
  | [] => []
  | c :: rest =>
      if c == 'Z' then '+' :: '0' :: '0' :: ':' :: '0' :: '0' :: replaceZ rest
      else c :: replaceZ rest

/-- Full-anchored `^(20\d{2})[-./]([01]?\d)[-./]([0-3]?\d)$`. -/
def regexFullYear (cs : List Char) : Option (Nat × Nat × Nat) :=
  match cs with
  | '2' :: '0' :: y3 :: y4 :: s1 :: rest =>
      if y3.isDigit && y4.isDigit && dashDotSlash s1 then
        match segParse monthFirst dashDotSlash rest with
        | some (mo, rest2) =>
            match rest2 with
            | [a] => if a.isDigit then some (2000 + 10 * dval y3 + dval y4, mo, dval a) else none
            | [a, b] =>
                if dayFirst a && b.isDigit
                then some (2000 + 10 * dval y3 + dval y4, mo, 10 * dval a + dval b) else none
            | _ => none
        | none => none
      else none
  | _ => none

/-- Full-anchored `^(\d{2})[-./]([01]?\d)[-./]([0-3]?\d)$`
(two-digit year, assumed 2000s by the caller). -/
def regexShortYear (cs : List Char) : Option (Nat × Nat × Nat) :=
  match cs with
  | a :: b :: s1 :: rest =>
      if a.isDigit && b.isDigit && dashDotSlash s1 then
        match segParse monthFirst dashDotSlash rest with
        | some (mo, rest2) =>
            match rest2 with
            | [c] => if c.isDigit then some (10 * dval a + dval b, mo, dval c) else none
            | [c, d] =>
                if dayFirst c && d.isDigit
                then some (10 * dval a + dval b, mo, 10 * dval c + dval d) else none
            | _ => none
        | none => none
      else none
  | _ => none

/-! `datetime.strptime` for the four long-form formats, modelled from the
standard library `_strptime`: month names matched case-insensitively,
`%d` is `3[01]|[12]\d|0[1-9]|[1-9]`, `%Y` is four digits, a space in the
format matches one or more whitespace characters, the whole string must
be consumed, and the resulting date is calendar-validated. -/

def monthsFull : List (List Char × Nat) :=
  [ ("january".toList, 1), ("february".toList, 2), ("march".toList, 3),
    ("april".toList, 4), ("may".toList, 5), ("june".toList, 6),
    ("july".toList, 7), ("august".toList, 8), ("september".toList, 9),
    ("october".toList, 10), ("november".toList, 11), ("december".toList, 12) ]

def monthsAbbr : List (List Char × Nat) :=
  [ ("jan".toList, 1), ("feb".toList, 2), ("mar".toList, 3),
    ("apr".toList, 4), ("may".toList, 5), ("jun".toList, 6),
    ("jul".toList, 7), ("aug".toList, 8), ("sep".toList, 9),
    ("oct".toList, 10), ("nov".toList, 11), ("dec".toList, 12) ]

def takeMonthName (names : List (List Char × Nat)) (cs : List Char) : Option (Nat × List Char) :=
  match names.find? (fun e => listStarts cs e.1) with
  | some e => some (e.2, cs.drop e.1.length)
  | none => none

/-- `%d`: alternation `3[01]|[12]\d|0[1-9]|[1-9]`, greedy first. -/
def takeDay : List Char → Option (Nat × List Char)
  | a :: b :: rest =>
      if a == '3' && (b == '0' || b == '1') then some (30 + dval b, rest)
      else if (a == '1' || a == '2') && b.isDigit then some (10 * dval a + dval b, rest)
      else if a == '0' && b.isDigit && b != '0' then some (dval b, rest)
      else if a.isDigit && a != '0' then some (dval a, b :: rest)
      else none
  | [a] => if a.isDigit && a != '0' then some (dval a, []) else none
  | [] => none

/-- `%Y`: exactly four digits. -/
def takeYear4 : List Char → Option (Nat × List Char)
  | y1 :: y2 :: y3 :: y4 :: rest =>
      if y1.isDigit && y2.isDigit && y3.isDigit && y4.isDigit
      then some (1000 * dval y1 + 100 * dval y2 + 10 * dval y3 + dval y4, rest) else none
  | _ => none

/-- `\s+`: at least one whitespace character. -/
def skipWs1 (cs : List Char) : Option (List Char) :=
  match cs with
  | c :: rest => if pyIsSpace c then some (rest.dropWhile pyIsSpace) else none
  | [] => none

/-- Format `%d %B %Y` / `%d %b %Y` on a lowercased character list. -/
def fmtDayMonthYear (names : List (List Char × Nat)) (cs : List Char) : Option (Nat × Nat × Nat) :=
  match takeDay cs with
  | some (d, r1) =>
      match skipWs1 r1 with
      | some r2 =>
          match takeMonthName names r2 with
          | some (mo, r3) =>
              match skipWs1 r3 with
              | some r4 =>
                  match takeYear4 r4 with
                  | some (y, r5) => if r5.isEmpty then some (y, mo, d) else none
                  | none => none
              | none => none
          | none => none
      | none => none
  | none => none

/-- Format `%B %d, %Y` / `%b %d, %Y` on a lowercased character list. -/
def fmtMonthDayYear (names : List (List Char × Nat)) (cs : List Char) : Option (Nat × Nat × Nat) :=
  match takeMonthName names cs with
  | some (mo, r1) =>
      match skipWs1 r1 with
      | some r2 =>
          match takeDay r2 with
          | some (d, r3) =>
              match r3 with
              | ',' :: r4 =>
                  match skipWs1 r4 with
                  | some r5 =>
                      match takeYear4 r5 with
                      | some (y, r6) => if r6.isEmpty then some (y, mo, d) else none
                      | none => none
                  | none => none
              | _ => none
          | none => none
      | none => none
  | none => none

/-- The `strptime` loop over the four formats: a format whose pattern
matches but whose date is calendar-invalid raises inside `strptime` and
falls through to the next format (`except: continue`). -/
def strptimeChain (cs : List Char) : Option PyDateTime :=
  match (fmtDayMonthYear monthsFull cs).bind (fun r => safe_dt r.1 r.2.1 r.2.2) with
  | some dt => some dt
  | none =>
      match (fmtDayMonthYear monthsAbbr cs).bind (fun r => safe_dt r.1 r.2.1 r.2.2) with
      | some dt => some dt
      | none =>
          match (fmtMonthDayYear monthsFull cs).bind (fun r => safe_dt r.1 r.2.1 r.2.2) with
          | some dt => some dt
          | none => (fmtMonthDayYear monthsAbbr cs).bind (fun r => safe_dt r.1 r.2.1 r.2.2)

/-- `LinkCollector._parse_date_string` (with the optional `dateutil`
dependency absent): empty-check, strip, ISO-8601 with `Z` normalized,
the two anchored numeric patterns (returning `_safe_dt`'s result
directly, as the source does), then the four `strptime` formats. -/
def parse_date_string (s : String) : Option PyDateTime :=
  if s == "" then none
  else
    let t := pyStrip s
    match fromisoformat (String.mk (replaceZ t.toList)) with
    | some dt => some dt
    | none =>
        match regexFullYear t.toList with
        | some (y, mo, d) => safe_dt y mo d
        | none =>
            match regexShortYear t.toList with
            | some (y2, mo, d) => safe_dt (2000 + y2) mo d
            | none => strptimeChain (pyLower t).toList

/-! ## Date enrichment (`LinkCollector._enrich_dates`)

The browser-assisted page inspection (`_extract_date_from_page`)
drives an external browser, so it enters the model as an oracle
`pageDate : String → Option PyDateTime`.  `_enrich_dates` spawns one
`work` task per element of a seed's new-link list, and the per-seed
calls themselves run concurrently (one per crawling site).  Inside
`work`, the memo check and the URL-path inference are synchronous, but
when the URL yields no date the task suspends at the page-inspection
`await` before storing the result.  A task is therefore one atomic
`startTask` segment (memo check; URL inference; and, when the URL
carries the date, the store), followed — only when the browser stage
is needed — by an atomic `finishTask` segment (the store after the
await).  A schedule is any interleaving of the tasks' segments. -/

/-- The resolution body of `_enrich_dates.work` after the memo check:
URL-path inference first, browser-assisted page inspection only if that
fails.  The boolean records whether the browser stage was consulted. -/
def resolveLinkDate (pageDate : String → Option PyDateTime) (url : String) :
    Option PyDateTime × Bool :=
  match date_from_url url with
  | some d => (some d, false)
  | none => (pageDate url, true)

/-- The run-scoped enrichment state: `self.link_dates`, the log of URLs
for which the resolution body was started (one entry per attempt), the
tasks already started, and the tasks suspended at the page-inspection
`await`.  Stores append to the map; Python's dict assignment
overwrites, but any two stores of one URL in a run write the value of
the same per-run oracle, so lookups agree. -/
structure EnrichSession where
  link_dates : List (String × PyDateTime)
  attempts : List String
  started : List Nat
  waiting : List Nat
deriving Repr, DecidableEq

/-- The two possible atomic segments of a `work` task. -/
inductive EnrichAction where
  | startTask (t : Nat)
  | finishTask (t : Nat)
deriving Repr, DecidableEq

/-- One atomic segment of `_enrich_dates.work` for task `t` handling
`taskUrls[t]`.  `startTask`: if the URL already has a date, return
(attempting nothing); else the attempt begins — when the URL path
yields a date it is stored in the same segment (no `await` on that
path), otherwise the task suspends, joining `waiting`.  `finishTask`:
the segment after the page-inspection `await` — store the oracle's
result if any (the source stores without re-checking the memo).
Repeated or out-of-range segments are no-ops, so every action list is
a safe schedule. -/
def stepEnrichAction (pageDate : String → Option PyDateTime) (taskUrls : List String)
    (st : EnrichSession) (a : EnrichAction) : EnrichSession :=
  match a with
  | .startTask t =>
      match taskUrls.get? t with
      | none => st
      | some url =>
          if st.started.contains t then st
          else if (List.lookup url st.link_dates).isSome then
            ⟨st.link_dates, st.attempts, st.started ++ [t], st.waiting⟩
          else
            match date_from_url url with
            | some d =>
                ⟨st.link_dates ++ [(url, d)], st.attempts ++ [url],
                 st.started ++ [t], st.waiting⟩
            | none =>
                ⟨st.link_dates, st.attempts ++ [url],
                 st.started ++ [t], st.waiting ++ [t]⟩
  | .finishTask t =>
      if st.waiting.contains t then
        match taskUrls.get? t with
        | none => st
        | some url =>
            match pageDate url with
            | some d =>
                ⟨st.link_dates ++ [(url, d)], st.attempts,
                 st.started, st.waiting.erase t⟩
            | none =>
                ⟨st.link_dates, st.attempts, st.started, st.waiting.erase t⟩
      else st

def runEnrichSchedule (pageDate : String → Option PyDateTime) (taskUrls : List String)
    (sched : List EnrichAction) (st : EnrichSession) : EnrichSession :=
  sched.foldl (stepEnrichAction pageDate taskUrls) st

def enrichInit : EnrichSession := ⟨[], [], [], []⟩

/-- The run's task list: one `work` task per occurrence of a link in
any seed's new-link list. -/
def enrichTasksOf (passes : List (List String)) : List String := passes.flatten

/-- Does this action start a task whose URL is `L`? -/
def startsUrl (taskUrls : List String) (L : String) : EnrichAction → Bool
  | .startTask t => taskUrls.get? t == some L
  | .finishTask _ => false

/-! ## Crawl-session attribution (`LinkCollector._process_single_site`)

`_process_single_site` snapshots the global dedup set on entry, crawls
(adding links to the global set), and finally attributes to its seed
every collected link that is missing from its snapshot and matches its
domain.  Under asyncio the three phases of different seeds interleave at
suspension points, so the session is modelled as a small-step system:
an action is one atomic segment (no `await` inside), and a schedule is
any interleaving of the seeds' action sequences. -/

structure SiteSpec where
  base_url : String
  crawl : List String
deriving Repr, DecidableEq

structure SessionState where
  collected : List String
  snaps : List (Nat × List String)
  attributed : List (Nat × List String)
deriving Repr, DecidableEq

inductive CrawlAction where
  | snapshot (site : Nat)
  | addLink (site : Nat) (link : String)
  | attrib (site : Nat)
deriving Repr, DecidableEq

def actionSite : CrawlAction → Nat
  | .snapshot i => i
  | .addLink i _ => i
  | .attrib i => i

/-- The expected domain of seed `i`: `urlparse(base_url).netloc.lower()`. -/
def siteDomain (sites : List SiteSpec) (i : Nat) : String :=
  match sites.get? i with
  | some s => pyLower (netloc s.base_url)
  | none => ""

/-- One atomic segment of `_process_single_site`:
`snapshot` copies the global set, `addLink` adds a crawled link to the
global dedup set, `attrib` stores the seed's new-link list (collected
links missing from the seed's snapshot that match the seed's domain;
the set-iteration order of the Python loop is modelled as collection
order, which is irrelevant to membership). -/
def stepAction (sites : List SiteSpec) (st : SessionState) (a : CrawlAction) :
    SessionState :=
  match a with
  | .snapshot i => ⟨st.collected, (i, st.collected) :: st.snaps, st.attributed⟩
  | .addLink _ l =>
      if st.collected.contains l then st
      else ⟨st.collected ++ [l], st.snaps, st.attributed⟩
  | .attrib i =>
      let snap := (List.lookup i st.snaps).getD []
      let newLinks := st.collected.filter
        (fun l => !(snap.contains l) && is_link_from_domain l (siteDomain sites i))
      ⟨st.collected, st.snaps, st.attributed ++ [(i, newLinks)]⟩

def runSchedule (sites : List SiteSpec) (sched : List CrawlAction)
    (st : SessionState) : SessionState :=
  sched.foldl (stepAction sites) st

/-- Seed `i`'s own action sequence (its program order). -/
def siteBlock (i : Nat) (s : SiteSpec) : List CrawlAction :=
  CrawlAction.snapshot i :: (s.crawl.map (CrawlAction.addLink i) ++ [CrawlAction.attrib i])

/-- The fully sequential schedule: each seed's block runs to completion
before the next seed starts (no interleaving). -/
def seqSchedule (sites : List SiteSpec) : List CrawlAction :=
  (sites.enum.map (fun p => siteBlock p.1 p.2)).flatten

def run_sequential (sites : List SiteSpec) : SessionState :=
  runSchedule sites (seqSchedule sites) ⟨[], [], []⟩

/-! ## Load-more crawler (`LinkCollector._collect_load_more_site`)

Button availability and the links extracted from the page are browser
effects, entering as oracles indexed by the click counter.  The click
loop increments `click_count` on every iteration that finds a button,
so at most `max_clicks` iterations run; the fuel argument equals
`max_clicks`, which is never exhausted before the guard fails. -/

def max_clicks : Nat := 20

def limit_click_count : Nat := 3

def newLinksOf (collected links : List String) : List String :=
  links.filter (fun l => !(collected.contains l))

def loadMoreLoop (button : Nat → Bool) (extract : Nat → List String) :
    Nat → Nat → Nat → List String → List String × Nat
  | 0, click_count, _, collected => (collected, click_count)
  | fuel + 1, click_count, no_new, collected =>
      if click_count < max_clicks && no_new < limit_click_count then
        if button click_count then
          let cc := click_count + 1
          let nl := newLinksOf collected (extract cc)
          if nl.isEmpty then loadMoreLoop button extract fuel cc (no_new + 1) collected
          else loadMoreLoop button extract fuel cc 0 (collected ++ nl)
        else (collected, click_count)
      else (collected, click_count)

/-- `_collect_load_more_site`: initial extraction (index 0), then the
click loop; returns the global set and the number of clicks performed. -/
def collect_load_more_site (button : Nat → Bool) (extract : Nat → List String)
    (collected0 : List String) : List String × Nat :=
  loadMoreLoop button extract max_clicks 0 0 (collected0 ++ newLinksOf collected0 (extract 0))

/-! ## Paginated crawler (`LinkCollector._collect_paginated_site_parallel`)

Page fetches are browser effects, entering as an oracle from page
number to extracted links.  `asyncio.gather` returns batch results in
page order and the new-link accounting then runs sequentially over
them, which the batch fold reproduces.  `page_num` grows by the batch
size each iteration while the guard requires `page_num ≤ max_pages`,
so at most 20 iterations run; the fuel argument is `max_pages`, never
exhausted before the guard fails. -/

def max_pages : Nat := 100

def max_concurrent_pages : Nat := 5

/-- `list(range(page_num, min(page_num + batch_size, max_pages + 1)))`. -/
def batchRange (page_num : Nat) : List Nat :=
  List.range' page_num (min (page_num + max_concurrent_pages) (max_pages + 1) - page_num)

/-- The post-gather accounting loop over one batch's results: pages are
processed in order, each contributing its links missing from the
evolving global set; the boolean is `any_new_links`. -/
def processBatch (collected : List String) : List (List String) → List String × Bool
  | [] => (collected, false)
  | links :: rest =>
      let nl := newLinksOf collected links
      if nl.isEmpty then processBatch collected rest
      else ((processBatch (collected ++ nl) rest).1, true)

def pagLoop (fetch : Nat → List String) :
    Nat → Nat → List String → List Nat → List String × List Nat
  | 0, _, collected, visited => (collected, visited)
  | fuel + 1, page_num, collected, visited =>
      if page_num ≤ max_pages then
        let batch := batchRange page_num
        let pr := processBatch collected (batch.map fetch)
        if pr.2 then
          pagLoop fetch fuel (page_num + max_concurrent_pages) pr.1 (visited ++ batch)
        else (pr.1, visited ++ batch)
      else (collected, visited)

/-- `_collect_paginated_site_parallel`: page 1 alone first (exhausted if
it yields no links at all), then batches from page 2.  Returns the
global set and the list of fetched page numbers. -/
def collect_paginated_site (fetch : Nat → List String) (collected0 : List String) :
    List String × List Nat :=
  let first := fetch 1
  if first.isEmpty then (collected0, [1])
  else pagLoop fetch max_pages 2 (collected0 ++ newLinksOf collected0 first) [1]

/-! ## Link store output (`LinkCollector._save_urls_by_section`)

`sorted(links, key=sort_key, reverse=True)` is a stable descending
sort by key; it is embedded as a stable insertion sort that places an
element before the first list element whose key is `≤` its own, which
yields exactly the same ordering (descending, with ties and the
original order preserved). -/

/-- The `datetime(1970, 1, 1)` default of `sort_key`. -/
def epochSentinel : PyDateTime := ⟨1970, 1, 1, 0⟩

/-- `sort_key`: the link's resolved date, or the 1970 sentinel. -/
def sort_key (link_dates : List (String × PyDateTime)) (u : String) : PyDateTime :=
  (List.lookup u link_dates).getD epochSentinel

def insertDesc (key : String → PyDateTime) (x : String) : List String → List String
  | [] => [x]
  | y :: ys => if dtLe (key y) (key x) then x :: y :: ys else y :: insertDesc key x ys

/-- Stable descending sort by key: the model of
`sorted(links, key=sort_key, reverse=True)`. -/
def sortLinksDesc (key : String → PyDateTime) (links : List String) : List String :=
  links.foldr (insertDesc key) []

/-- The per-seed sections of the output: seeds in reverse discovery
order, empty-link seeds skipped, each seed's links sorted by date
descending.  (Python keys `links_by_source` by seed URL; a duplicate
seed URL overwrites its earlier entry, which only removes sections and
is not modelled.) -/
def save_urls_by_section (link_dates : List (String × PyDateTime))
    (links_by_source : List (String × List String)) : List (String × List String) :=
  links_by_source.reverse.filterMap
    (fun e => if e.2.isEmpty then none
              else some (e.1, sortLinksDesc (sort_key link_dates) e.2))

/-! ## Output rendering (`_save_urls_by_section`, file contents) -/

def header_first_line : String := "# CTI Links Collection"

def previous_marker : String :=
  "# =================== Previous Collections ===================\n\n"

def render_links : List String → String
  | [] => ""
  | l :: rest => l ++ "\n" ++ render_links rest

def render_section (current_time : String) (e : String × List String) : String :=
  "## " ++ e.1 ++ "\n# Collected: " ++ toString e.2.length ++ " links\n# Date: "
    ++ current_time ++ "\n\n" ++ render_links e.2 ++ "\n"

/-- The full text written by `_save_urls_by_section`: header block, the
per-seed sections, and — when a prior file's content is non-blank and
does not start with the header's first line — the previous-collections
marker followed by that prior content verbatim. -/
def save_output (current_time : String) (collected : List String)
    (link_dates : List (String × PyDateTime))
    (links_by_source : List (String × List String)) (existing : String) : String :=
  let headerP := header_first_line ++ "\n# Last Updated: " ++ current_time
    ++ "\n# Total Links: " ++ toString collected.length ++ "\n\n"
  let body := String.join ((save_urls_by_section link_dates links_by_source).map
    (render_section current_time))
  if pyStripNonempty existing && !(strStartsWith existing header_first_line) then
    (headerP ++ body) ++ (previous_marker ++ existing)
  else headerP ++ body

/-! ## Concrete scenario data used by the theorems below -/

/-- A pagination oracle where pages 1–5 yield one link each and every
later page yields nothing. -/
def exFetch : Nat → List String :=
  fun p => if p ≤ 5 then [String.mk (List.replicate p 'x')] else []

/-- A load-more extraction oracle where only the third click reveals a
new link. -/
def exResetExtract : Nat → List String :=
  fun i => if i == 3 then ["a"] else []

/-- A load-more extraction oracle where every click reveals a fresh link. -/
def exFreshExtract : Nat → List String :=
  fun i => [String.mk (List.replicate i 'y')]

/-! ## Lemmas about the load-more click loop -/

lemma loadMoreLoop_clicks_le (button : Nat → Bool) (extract : Nat → List String) :
    ∀ (fuel cc nn : Nat) (col : List String), cc ≤ max_clicks →
      (loadMoreLoop button extract fuel cc nn col).2 ≤ max_clicks := by
  intro fuel
  induction fuel with
  | zero => intro cc nn col h; simpa [loadMoreLoop] using h
  | succ n ih =>
      intro cc nn col h
      simp only [loadMoreLoop]
      by_cases hg : (decide (cc < max_clicks) && decide (nn < limit_click_count)) = true
      · rw [if_pos hg]
        have hcc : cc < max_clicks := by
          have := hg
          simp only [Bool.and_eq_true, decide_eq_true_eq] at this
          exact this.1
        by_cases hb : button cc = true
        · rw [if_pos hb]
          by_cases hn : (newLinksOf col (extract (cc + 1))).isEmpty = true
          · rw [if_pos hn]; exact ih (cc + 1) (nn + 1) col hcc
          · rw [if_neg hn]; exact ih (cc + 1) 0 _ hcc
        · rw [if_neg hb]; exact h
      · rw [if_neg hg]; exact h

/-! ## Lemmas about the pagination loop -/

lemma mem_batchRange_bounds {q page_num : Nat} (h : q ∈ batchRange page_num) :
    page_num ≤ q ∧ q ≤ max_pages := by
  rw [batchRange, List.mem_range'_1] at h
  have h2 := h.2
  have : q < min (page_num + max_concurrent_pages) (max_pages + 1) := by omega
  refine ⟨h.1, ?_⟩
  have := Nat.min_le_right (page_num + max_concurrent_pages) (max_pages + 1)
  omega

lemma pagLoop_visited_spec (fetch : Nat → List String) :
    ∀ (fuel page_num : Nat) (c : List String) (v : List Nat) (q : Nat),
      q ∈ (pagLoop fetch fuel page_num c v).2 →
      q ∈ v ∨ (page_num ≤ q ∧ q ≤ max_pages) := by
  intro fuel
  induction fuel with
  | zero => intro pn c v q h; exact Or.inl (by simpa [pagLoop] using h)
  | succ n ih =>
      intro pn c v q h
      simp only [pagLoop] at h
      split at h
      · split at h
        · rcases ih _ _ _ q h with h2 | h2
          · rcases List.mem_append.1 h2 with h3 | h3
            · exact Or.inl h3
            · have := mem_batchRange_bounds h3
              right; omega
          · right; omega
        · rcases List.mem_append.1 h with h3 | h3
          · exact Or.inl h3
          · have := mem_batchRange_bounds h3
            right; omega
      · exact Or.inl h

lemma pagLoop_visited_nodup (fetch : Nat → List String) :
    ∀ (fuel page_num : Nat) (c : List String) (v : List Nat),
      v.Nodup → (∀ q ∈ v, q < page_num) →
      (pagLoop fetch fuel page_num c v).2.Nodup := by
  intro fuel
  induction fuel with
  | zero => intro pn c v hnd _; simpa [pagLoop] using hnd
  | succ n ih =>
      intro pn c v hnd hlt
      simp only [pagLoop]
      have hbnd : ∀ q ∈ batchRange pn, pn ≤ q ∧ q ≤ max_pages :=
        fun q hq => mem_batchRange_bounds hq
      have hnd2 : (v ++ batchRange pn).Nodup := by
        refine List.Nodup.append hnd (List.nodup_range' _ _) ?_
        intro a hav habatch
        have h1 := hlt a hav
        have h2 := (hbnd a habatch).1
        omega
      have hlt2 : ∀ q ∈ v ++ batchRange pn, q < pn + max_concurrent_pages := by
        intro q hq
        rcases List.mem_append.1 hq with h3 | h3
        · have := hlt q h3; omega
        · rw [batchRange, List.mem_range'_1] at h3
          omega
      split
      · split
        · exact ih _ _ _ hnd2 hlt2
        · exact hnd2
      · exact hnd

lemma collect_paginated_visited_bounds (fetch : Nat → List String) (c0 : List String)
    (q : Nat) (hq : q ∈ (collect_paginated_site fetch c0).2) : 1 ≤ q ∧ q ≤ max_pages := by
  simp only [collect_paginated_site] at hq
  split at hq
  · simp at hq
    simp [hq, max_pages]
  · rcases pagLoop_visited_spec fetch _ _ _ _ _ hq with h | h
    · simp at h
      simp [h, max_pages]
    · omega

lemma collect_paginated_visited_nodup (fetch : Nat → List String) (c0 : List String) :
    (collect_paginated_site fetch c0).2.Nodup := by
  simp only [collect_paginated_site]
  split
  · simp
  · exact pagLoop_visited_nodup fetch _ _ _ _ (by simp) (by simp)

lemma collect_paginated_visited_length (fetch : Nat → List String) (c0 : List String) :
    (collect_paginated_site fetch c0).2.length ≤ max_pages := by
  have hnd := collect_paginated_visited_nodup fetch c0
  calc (collect_paginated_site fetch c0).2.length
      = (collect_paginated_site fetch c0).2.toFinset.card :=
        (List.toFinset_card_of_nodup hnd).symm
    _ ≤ (Finset.Icc 1 max_pages).card := by
        refine Finset.card_le_card ?_
        intro q hq
        rw [List.mem_toFinset] at hq
        have := collect_paginated_visited_bounds fetch c0 q hq
        rw [Finset.mem_Icc]
        omega
    _ = max_pages := by rw [Nat.card_Icc]; omega

/-- C4 (corrected).  Pagination stop rule: page 1 is fetched alone and
an empty page 1 stops the crawl immediately with only page 1 fetched;
every fetched page number lies between 1 and 100 and at most 100 pages
are fetched in total; the batches start at page 2 in blocks of 5
([2–6], [7–11], …), so when pages 1–5 return links and later pages
return none, the crawl fetches exactly pages 1–11 — it halts after the
batch covering pages 7–11 and never attempts page 12. -/
theorem C4_pagination_stop :
    (∀ (fetch : Nat → List String) (c0 : List String), (fetch 1).isEmpty = true →
        collect_paginated_site fetch c0 = (c0, [1])) ∧
    (∀ (fetch : Nat → List String) (c0 : List String) (q : Nat),
        q ∈ (collect_paginated_site fetch c0).2 → 1 ≤ q ∧ q ≤ max_pages) ∧
    (∀ (fetch : Nat → List String) (c0 : List String),
        (collect_paginated_site fetch c0).2.length ≤ max_pages) ∧
    (collect_paginated_site exFetch []).2 = [1, 2, 3, 4, 5, 6, 7, 8, 9, 10, 11] := by
  refine ⟨?_, ?_, ?_, by decide⟩
  · intro fetch c0 h
    simp only [collect_paginated_site]
    rw [if_pos h]
  · exact fun fetch c0 q hq => collect_paginated_visited_bounds fetch c0 q hq
  · exact fun fetch c0 => collect_paginated_visited_length fetch c0

/-- C4 witness: the first and second conjuncts applied at concrete
inputs, with the hypotheses discharged. -/
theorem C4_pagination_stop_witness :
    collect_paginated_site (fun _ => ([] : List String)) [] = ([], [1]) ∧
    (1 ≤ 11 ∧ 11 ≤ max_pages) :=
  ⟨C4_pagination_stop.1 (fun _ => []) [] (by decide),
   C4_pagination_stop.2.1 exFetch [] 11 (by decide)⟩

/-- C4 counterexample to the claim as stated: in the claim's scenario —
pages 1–5 return links, pages 6–10 return zero (new) links — page 11
is nevertheless fetched, because the batches are [2–6], [7–11], …, so
the batch that observes pages 6–10 as empty already covers page 11. -/
theorem C4_page_eleven_is_fetched :
    ([6, 7, 8, 9, 10].all (fun p => (exFetch p).isEmpty)) = true ∧
    ([1, 2, 3, 4, 5].all (fun p => !(exFetch p).isEmpty)) = true ∧
    11 ∈ (collect_paginated_site exFetch []).2 := by
  refine ⟨by decide, by decide, by decide⟩

/-- C5 (confirmed).  Load-more termination: the click loop performs at
most 20 clicks for every oracle; with no clickable button it stops at 0
clicks regardless of the counters; with a button always present and no
new links ever, it stops after exactly 3 clicks (the no-new streak
limit, well below the cap); when the third click yields a new link the
no-new counter resets and the loop runs to 6 clicks; and with fresh
links on every click it runs to the full 20-click cap. -/
theorem C5_load_more_termination :
    (∀ (button : Nat → Bool) (extract : Nat → List String) (c0 : List String),
        (collect_load_more_site button extract c0).2 ≤ max_clicks) ∧
    (∀ (extract : Nat → List String) (c0 : List String),
        (collect_load_more_site (fun _ => false) extract c0).2 = 0) ∧
    (collect_load_more_site (fun _ => true) (fun _ => []) []).2 = limit_click_count ∧
    (collect_load_more_site (fun _ => true) exResetExtract []).2 = 6 ∧
    (collect_load_more_site (fun _ => true) exFreshExtract []).2 = max_clicks := by
  refine ⟨?_, ?_, by decide, by decide, by decide⟩
  · intro button extract c0
    exact loadMoreLoop_clicks_le button extract max_clicks 0 0 _ (Nat.zero_le _)
  · intro extract c0
    rfl

/-- C6 (confirmed).  Date-string parsing: `"24.03.05"` parses to
2024-03-05 (two-digit years assumed 2000s), `"March 5, 2024"` parses to
2024-03-05, `"2024-13-40"` yields unknown (`none`) because it is not a
valid calendar date, and the parser is a total function returning an
optional datetime for every input string (the embedding of "never
raises"). -/
theorem C6_date_string_parsing :
    parse_date_string "24.03.05" = some ⟨2024, 3, 5, 0⟩ ∧
    parse_date_string "March 5, 2024" = some ⟨2024, 3, 5, 0⟩ ∧
    parse_date_string "2024-13-40" = none ∧
    ∀ s : String, parse_date_string s = none ∨ ∃ d, parse_date_string s = some d := by
  refine ⟨by decide, by decide, by decide, ?_⟩
  intro s
  cases h : parse_date_string s with
  | none => exact Or.inl rfl
  | some d => exact Or.inr ⟨d, rfl⟩

/-- C7 (confirmed).  Date fallback order: for a URL whose path encodes
the valid date `/2024/03/05/`, the resolution body returns that date
from the URL pattern alone with the browser stage not consulted, for
every page-inspection oracle; a URL-path date with month 13 is
discarded (`none`) rather than raised, and resolution falls through to
the browser stage for that link. -/
theorem C7_date_fallback_order :
    (∀ pageDate : String → Option PyDateTime,
        resolveLinkDate pageDate "https://x/2024/03/05/report" = (some ⟨2024, 3, 5, 0⟩, false)) ∧
    date_from_url "https://x/2024/13/05/report" = none ∧
    (∀ pageDate : String → Option PyDateTime,
        resolveLinkDate pageDate "https://x/2024/13/05/report" =
          (pageDate "https://x/2024/13/05/report", true)) :=
  ⟨fun _ => rfl, by decide, fun _ => rfl⟩

/-- C8 (confirmed).  Domain alias correctness: whenever the (lowercased)
expected domain contains an alias-table key, the matcher's verdict is
exactly membership of the link's host in the first matching key's alias
set; concretely, for a seed on `www.fortinet.com`, links hosted on
`www.fortinet.com` and on `fortinet.com` are both accepted while a link
on `fortinet.com.evil.example` is rejected. -/
theorem C8_domain_alias_strict (link expected : String) (al : List String)
    (h : findAliasKey (pyLower expected) = some al) :
    (is_link_from_domain link expected = al.contains (pyLower (netloc link))) ∧
    is_link_from_domain "https://www.fortinet.com/blog/threat-research/post" "www.fortinet.com" = true ∧
    is_link_from_domain "https://fortinet.com/blog/threat-research/post" "www.fortinet.com" = true ∧
    is_link_from_domain "https://fortinet.com.evil.example/phish" "www.fortinet.com" = false := by
  refine ⟨?_, by decide, by decide, by decide⟩
  simp only [is_link_from_domain, h]

/-- C8 witness: the strict-table characterization applied at the
fortinet seed and an evil-subdomain link, hypothesis discharged. -/
theorem C8_domain_alias_strict_witness :
    is_link_from_domain "https://fortinet.com.evil.example/phish" "www.fortinet.com" =
      (["www.fortinet.com", "fortinet.com"] : List String).contains
        (pyLower (netloc "https://fortinet.com.evil.example/phish")) :=
  (C8_domain_alias_strict "https://fortinet.com.evil.example/phish" "www.fortinet.com"
    ["www.fortinet.com", "fortinet.com"] (by decide)).1

/-- C9 (confirmed).  Legacy-content preservation: whenever the prior
output content is non-blank and does not start with the current header
format's first line, the rewritten file equals the fresh output
followed by the previous-collections marker and the prior content
verbatim — prior content is never silently discarded. -/
theorem C9_legacy_content_preserved (ct : String) (col : List String)
    (ld : List (String × PyDateTime)) (lbs : List (String × List String)) (ex : String)
    (h1 : pyStripNonempty ex = true) (h2 : strStartsWith ex header_first_line = false) :
    save_output ct col ld lbs ex = save_output ct col ld lbs "" ++ (previous_marker ++ ex) := by
  simp only [save_output, h1, h2]
  norm_num
  rfl

/-- C9 witness: the preservation equation at concrete inputs, with both
hypotheses discharged. -/
theorem C9_legacy_content_preserved_witness :
    save_output "2025-01-01 00:00:00" [] [] [] "old manual notes" =
      save_output "2025-01-01 00:00:00" [] [] [] "" ++ (previous_marker ++ "old manual notes") :=
  C9_legacy_content_preserved "2025-01-01 00:00:00" [] [] [] "old manual notes"
    (by decide) (by decide)

/-! ## Lemmas about the crawl-session step system -/

/-- Every attributed link is in the global dedup set. -/
def AttribInCollected (st : SessionState) : Prop :=
  ∀ e ∈ st.attributed, ∀ l, l ∈ e.2 → l ∈ st.collected

/-- No link sits in two seeds' attribution lists. -/
def AttribDisjoint (st : SessionState) : Prop :=
  List.Pairwise (fun e1 e2 => ∀ l, l ∈ e1.2 → l ∉ e2.2) st.attributed

lemma runSchedule_append (sites : List SiteSpec) (xs ys : List CrawlAction)
    (st : SessionState) :
    runSchedule sites (xs ++ ys) st = runSchedule sites ys (runSchedule sites xs st) := by
  simp [runSchedule, List.foldl_append]

lemma stepAction_addLink (sites : List SiteSpec) (i : Nat) (a : String) (st : SessionState) :
    (stepAction sites st (CrawlAction.addLink i a)).snaps = st.snaps ∧
    (stepAction sites st (CrawlAction.addLink i a)).attributed = st.attributed ∧
    ∀ l ∈ st.collected, l ∈ (stepAction sites st (CrawlAction.addLink i a)).collected := by
  simp only [stepAction]
  split
  · exact ⟨rfl, rfl, fun l hl => hl⟩
  · exact ⟨rfl, rfl, fun l hl => List.mem_append_left _ hl⟩

lemma runSchedule_addLinks (sites : List SiteSpec) (i : Nat) :
    ∀ (crawl : List String) (st : SessionState),
      (runSchedule sites (crawl.map (CrawlAction.addLink i)) st).snaps = st.snaps ∧
      (runSchedule sites (crawl.map (CrawlAction.addLink i)) st).attributed = st.attributed ∧
      ∀ l ∈ st.collected, l ∈ (runSchedule sites (crawl.map (CrawlAction.addLink i)) st).collected := by
  intro crawl
  induction crawl with
  | nil => exact fun st => ⟨rfl, rfl, fun l hl => hl⟩
  | cons a rest ih =>
      intro st
      have hstep := stepAction_addLink sites i a st
      have hrest := ih (stepAction sites st (CrawlAction.addLink i a))
      refine ⟨?_, ?_, ?_⟩
      · rw [List.map_cons]
        show (runSchedule sites (rest.map (CrawlAction.addLink i))
          (stepAction sites st (CrawlAction.addLink i a))).snaps = st.snaps
        rw [hrest.1, hstep.1]
      · rw [List.map_cons]
        show (runSchedule sites (rest.map (CrawlAction.addLink i))
          (stepAction sites st (CrawlAction.addLink i a))).attributed = st.attributed
        rw [hrest.2.1, hstep.2.1]
      · intro l hl
        rw [List.map_cons]
        exact hrest.2.2 l (hstep.2.2 l hl)

lemma runSchedule_block_inv (sites : List SiteSpec) (i : Nat) (s : SiteSpec)
    (st : SessionState) (h1 : AttribInCollected st) (h2 : AttribDisjoint st) :
    AttribInCollected (runSchedule sites (siteBlock i s) st) ∧
    AttribDisjoint (runSchedule sites (siteBlock i s) st) := by
  have hblock : siteBlock i s =
      [CrawlAction.snapshot i] ++ (s.crawl.map (CrawlAction.addLink i) ++ [CrawlAction.attrib i]) := rfl
  rw [hblock, runSchedule_append, runSchedule_append]
  have hsnap : runSchedule sites [CrawlAction.snapshot i] st =
      ⟨st.collected, (i, st.collected) :: st.snaps, st.attributed⟩ := rfl
  rw [hsnap]
  have hadds := runSchedule_addLinks sites i s.crawl
    ⟨st.collected, (i, st.collected) :: st.snaps, st.attributed⟩
  generalize hst2 : runSchedule sites (s.crawl.map (CrawlAction.addLink i))
    ⟨st.collected, (i, st.collected) :: st.snaps, st.attributed⟩ = st2 at hadds
  have hsnaps2 : st2.snaps = (i, st.collected) :: st.snaps := hadds.1
  have hattr2 : st2.attributed = st.attributed := hadds.2.1
  have hsub : ∀ l ∈ st.collected, l ∈ st2.collected := hadds.2.2
  have hrun : runSchedule sites [CrawlAction.attrib i] st2 = stepAction sites st2 (CrawlAction.attrib i) := rfl
  rw [hrun]
  have hlookup : (List.lookup i st2.snaps).getD [] = st.collected := by
    rw [hsnaps2]; simp
  simp only [stepAction, hlookup]
  constructor
  · intro e he l hl
    simp only at he hl ⊢
    rcases List.mem_append.1 he with hold | hnew
    · rw [hattr2] at hold
      exact hsub l (h1 e hold l hl)
    · simp only [List.mem_singleton] at hnew
      subst hnew
      simp only at hl
      exact (List.mem_filter.1 hl).1
  · show List.Pairwise _ (st2.attributed ++ [(i, _)])
    rw [List.pairwise_append]
    refine ⟨by rw [hattr2]; exact h2, List.pairwise_singleton _ _, ?_⟩
    intro e he y hy l hle hly
    simp only [List.mem_singleton] at hy
    subst hy
    rw [hattr2] at he
    have hlcol : l ∈ st.collected := h1 e he l hle
    have hfilter := (List.mem_filter.1 hly).2
    simp only [Bool.and_eq_true, Bool.not_eq_true'] at hfilter
    have hcon : st.collected.contains l = false := hfilter.1
    simp at hcon
    exact hcon hlcol

lemma runSchedule_blocks_inv (sites : List SiteSpec) :
    ∀ (ps : List (Nat × SiteSpec)) (st : SessionState),
      AttribInCollected st → AttribDisjoint st →
      AttribInCollected (runSchedule sites ((ps.map (fun p => siteBlock p.1 p.2)).flatten) st) ∧
      AttribDisjoint (runSchedule sites ((ps.map (fun p => siteBlock p.1 p.2)).flatten) st) := by
  intro ps
  induction ps with
  | nil => exact fun st a b => ⟨a, b⟩
  | cons p rest ih =>
      intro st h1 h2
      rw [List.map_cons, List.flatten_cons, runSchedule_append]
      have hblk := runSchedule_block_inv sites p.1 p.2 st h1 h2
      exact ih _ hblk.1 hblk.2

/-- C1 (corrected).  Attribution exclusivity holds for sequential
execution: when each seed's snapshot–crawl–attribute block runs to
completion before the next seed starts, no link appears in more than
one seed's attribution list. -/
theorem C1_attribution_exclusive_sequential (sites : List SiteSpec) :
    List.Pairwise (fun e1 e2 => ∀ l, l ∈ e1.2 → l ∉ e2.2)
      (run_sequential sites).attributed := by
  have h := runSchedule_blocks_inv sites sites.enum ⟨[], [], []⟩
    (fun e he => absurd he (List.not_mem_nil e)) List.Pairwise.nil
  exact h.2

/-! Concrete interleaving refuting attribution exclusivity under
concurrency: two seeds with overlapping domains snapshot an empty
global set, then seed 0's crawl surfaces a fortinet link before either
attributes, so both attribute it.  The two filters below show the
schedule respects each seed's own program order. -/

def fortiLink : String :=
  "https://www.fortinet.com/blog/threat-research/new-malware-campaign-analysis"

def exSeedA : SiteSpec := ⟨"https://www.fortinet.com/blog/threat-research", [fortiLink]⟩

def exSeedB : SiteSpec := ⟨"https://fortinet.com/blog", []⟩

def exSites : List SiteSpec := [exSeedA, exSeedB]

def exInterleaving : List CrawlAction :=
  [.snapshot 0, .snapshot 1, .addLink 0 fortiLink, .attrib 0, .attrib 1]

/-- C1 counterexample: under the interleaved (but per-seed
program-order-respecting) schedule, the same link ends up in both
seeds' attribution lists. -/
theorem C1_interleaving_double_attribution :
    (exInterleaving.filter (fun a => actionSite a == 0)) = siteBlock 0 exSeedA ∧
    (exInterleaving.filter (fun a => actionSite a == 1)) = siteBlock 1 exSeedB ∧
    List.lookup 0 (runSchedule exSites exInterleaving ⟨[], [], []⟩).attributed =
      some [fortiLink] ∧
    List.lookup 1 (runSchedule exSites exInterleaving ⟨[], [], []⟩).attributed =
      some [fortiLink] := by
  refine ⟨by decide, by decide, by decide, by decide⟩

/-! ## Lemmas about date-resolution memoization -/

lemma lookup_append_isSome {α β : Type} [BEq α] {k : α} {xs ys : List (α × β)}
    (h : (List.lookup k xs).isSome) : (List.lookup k (xs ++ ys)).isSome := by
  induction xs with
  | nil => simp [List.lookup] at h
  | cons p rest ih =>
      rw [List.cons_append, List.lookup_cons]
      rw [List.lookup_cons] at h
      split at h
      · simp_all [List.lookup_cons]
      · simp_all [List.lookup_cons]

lemma stepEnrich_lookup_isSome (pd : String → Option PyDateTime) (urls : List String)
    (st : EnrichSession) (a : EnrichAction) (L : String)
    (h : (List.lookup L st.link_dates).isSome) :
    (List.lookup L (stepEnrichAction pd urls st a).link_dates).isSome := by
  rcases a with t | t
  · simp only [stepEnrichAction]
    split
    · exact h
    · split
      · exact h
      · split
        · exact h
        · split
          · exact lookup_append_isSome h
          · exact h
  · simp only [stepEnrichAction]
    split
    · split
      · exact h
      · split
        · exact lookup_append_isSome h
        · exact h
    · exact h

lemma stepEnrich_attempts_shape (pd : String → Option PyDateTime) (urls : List String)
    (st : EnrichSession) (a : EnrichAction) :
    (stepEnrichAction pd urls st a).attempts = st.attempts ∨
    ∃ t url, a = EnrichAction.startTask t ∧ urls.get? t = some url ∧
      (stepEnrichAction pd urls st a).attempts = st.attempts ++ [url] := by
  rcases a with t | t
  · simp only [stepEnrichAction]
    split
    · exact Or.inl rfl
    · next url hget =>
      split
      · exact Or.inl rfl
      · split
        · exact Or.inl rfl
        · split
          · exact Or.inr ⟨t, url, rfl, hget, rfl⟩
          · exact Or.inr ⟨t, url, rfl, hget, rfl⟩
  · simp only [stepEnrichAction]
    split
    · split
      · exact Or.inl rfl
      · split
        · exact Or.inl rfl
        · exact Or.inl rfl
    · exact Or.inl rfl

lemma stepEnrich_count_le (pd : String → Option PyDateTime) (urls : List String)
    (st : EnrichSession) (a : EnrichAction) (L : String) :
    (stepEnrichAction pd urls st a).attempts.count L ≤ st.attempts.count L + 1 := by
  rcases stepEnrich_attempts_shape pd urls st a with hs | ⟨t, url, _, _, hs⟩
  · rw [hs]; omega
  · rw [hs, List.count_append]
    have : List.count L [url] ≤ 1 := by
      by_cases he : url = L <;> simp [List.count_singleton, he]
    omega

lemma stepEnrich_count_of_not_start (pd : String → Option PyDateTime) (urls : List String)
    (st : EnrichSession) (a : EnrichAction) (L : String)
    (h : startsUrl urls L a = false) :
    (stepEnrichAction pd urls st a).attempts.count L = st.attempts.count L := by
  rcases stepEnrich_attempts_shape pd urls st a with hs | ⟨t, url, ha, hget, hs⟩
  · rw [hs]
  · have hne : url ≠ L := by
      intro he
      subst he
      rw [ha] at h
      simp only [startsUrl, hget] at h
      simp at h
    rw [hs, List.count_append]
    simp [List.count_singleton, hne]

lemma runEnrich_count_le_starts (pd : String → Option PyDateTime) (urls : List String)
    (L : String) :
    ∀ (sched : List EnrichAction) (st : EnrichSession),
      (runEnrichSchedule pd urls sched st).attempts.count L ≤
        st.attempts.count L + (sched.filter (startsUrl urls L)).length := by
  intro sched
  induction sched with
  | nil => intro st; simp [runEnrichSchedule]
  | cons a rest ih =>
      intro st
      show (runEnrichSchedule pd urls rest (stepEnrichAction pd urls st a)).attempts.count L ≤ _
      have hrest := ih (stepEnrichAction pd urls st a)
      by_cases hs : startsUrl urls L a = true
      · have hstep := stepEnrich_count_le pd urls st a L
        have hfil : ((a :: rest).filter (startsUrl urls L)).length =
            (rest.filter (startsUrl urls L)).length + 1 := by
          simp [List.filter_cons, hs]
        rw [hfil]
        omega
      · have hs2 : startsUrl urls L a = false := by
          rcases Bool.eq_false_or_eq_true (startsUrl urls L a) with h | h
          · exact absurd h hs
          · exact h
        have hstep := stepEnrich_count_of_not_start pd urls st a L hs2
        have hfil : ((a :: rest).filter (startsUrl urls L)).length =
            (rest.filter (startsUrl urls L)).length := by
          simp [List.filter_cons, hs2]
        rw [hfil]
        omega

/-- The invariant behind at-most-once resolution of URL-path-datable
links: the link has been attempted at most once, and if it has been
attempted its date is recorded. -/
def UrlMemoInv (L : String) (st : EnrichSession) : Prop :=
  st.attempts.count L ≤ 1 ∧
  (1 ≤ st.attempts.count L → (List.lookup L st.link_dates).isSome)

lemma stepEnrich_urlmemoinv (pd : String → Option PyDateTime) (urls : List String)
    (L : String) (hres : (date_from_url L).isSome) (st : EnrichSession)
    (a : EnrichAction) (h : UrlMemoInv L st) : UrlMemoInv L (stepEnrichAction pd urls st a) := by
  rcases a with t | t
  · simp only [stepEnrichAction]
    split
    · exact h
    · next url hget =>
      split
      · exact h
      · split
        · exact h
        · next hmiss =>
          by_cases hu : url = L
          · subst hu
            rcases Option.isSome_iff_exists.1 hres with ⟨d, hd⟩
            rw [hd]
            have hz : st.attempts.count url = 0 := by
              by_contra hnz
              have h1 : 1 ≤ st.attempts.count url := by omega
              exact hmiss (h.2 h1)
            constructor
            · simp only [List.count_append, hz, List.count_singleton]
              simp
            · intro _
              show (List.lookup url (st.link_dates ++ [(url, d)])).isSome
              rcases hld : List.lookup url st.link_dates with _ | v
              · rw [List.lookup_append]
                simp [hld]
              · exact lookup_append_isSome (by simp [hld])
          · have hone : List.count L [url] = 0 := by
              simp [List.count_singleton, hu]
            have h1 := h.1
            split
            · constructor
              · rw [List.count_append, hone]
                omega
              · intro hc
                rw [List.count_append, hone] at hc
                exact lookup_append_isSome (h.2 (by omega))
            · constructor
              · rw [List.count_append, hone]
                omega
              · intro hc
                rw [List.count_append, hone] at hc
                exact h.2 (by omega)
  · constructor
    · rcases stepEnrich_attempts_shape pd urls st (EnrichAction.finishTask t) with hs | ⟨u, url, ha, _, _⟩
      · rw [hs]; exact h.1
      · exact absurd ha (by simp)
    · intro hc
      rcases stepEnrich_attempts_shape pd urls st (EnrichAction.finishTask t) with hs | ⟨u, url, ha, _, _⟩
      · rw [hs] at hc
        exact stepEnrich_lookup_isSome pd urls st _ L (h.2 hc)
      · exact absurd ha (by simp)

lemma runEnrich_urlmemoinv (pd : String → Option PyDateTime) (urls : List String)
    (L : String) (hres : (date_from_url L).isSome) :
    ∀ (sched : List EnrichAction) (st : EnrichSession), UrlMemoInv L st →
      UrlMemoInv L (runEnrichSchedule pd urls sched st) := by
  intro sched
  induction sched with
  | nil => exact fun st h => h
  | cons a rest ih =>
      intro st h
      exact ih _ (stepEnrich_urlmemoinv pd urls L hres st a h)

/-- C2 (corrected).  Date-resolution memoization under every
interleaving of the per-seed `work` tasks: a task whose link already
has a resolved date at its memo check attempts nothing; a link whose
date is inferable from its URL path is attempted at most once per run,
because on that path the memo check, the attempt and the store form
one atomic segment; and every attempt is the start of a distinct
`work` task, so a link is attempted at most once per occurrence in the
seeds' new-link lists.  A link that needs the browser-assisted stage
is not protected across the page-inspection `await`: a failed attempt
is never memoized, and two tasks for the same link can both pass the
memo check before either stores, so such a link can be attempted once
per occurrence even when resolution succeeds (see the
counterexample). -/
theorem C2_date_resolution_memoization (pageDate : String → Option PyDateTime)
    (taskUrls : List String) (sched : List EnrichAction) (L : String) :
    ((date_from_url L).isSome →
        (runEnrichSchedule pageDate taskUrls sched enrichInit).attempts.count L ≤ 1) ∧
    (runEnrichSchedule pageDate taskUrls sched enrichInit).attempts.count L ≤
      (sched.filter (startsUrl taskUrls L)).length ∧
    (∀ (st : EnrichSession) (t : Nat) (url : String), taskUrls.get? t = some url →
        (List.lookup url st.link_dates).isSome →
        (stepEnrichAction pageDate taskUrls st (EnrichAction.startTask t)).attempts =
          st.attempts) := by
  refine ⟨?_, ?_, ?_⟩
  · intro hres
    exact (runEnrich_urlmemoinv pageDate taskUrls L hres sched enrichInit
      ⟨by simp [enrichInit], fun hc => absurd hc (by simp [enrichInit])⟩).1
  · have := runEnrich_count_le_starts pageDate taskUrls L sched enrichInit
    simpa [enrichInit] using this
  · intro st t url hget hmemo
    simp only [stepEnrichAction, hget]
    split
    · rfl
    · rfl

/-- The page-inspection oracle that never finds a date. -/
def exPageDate : String → Option PyDateTime := fun _ => none

/-- The page-inspection oracle that always finds a date. -/
def exPageFound : String → Option PyDateTime := fun _ => some ⟨2024, 3, 5, 0⟩

/-- A link with no date in its URL path. -/
def exFailLink : String := "https://example.com/articles/alpha"

/-- A link whose URL path carries a valid date. -/
def exDatedLink : String := "https://x/2024/03/05/report"

/-- C2 witness: the at-most-once conjunct applied to a run with two
tasks for the same URL-dated link (one per seed list containing it),
interleaved, hypothesis discharged. -/
theorem C2_date_resolution_memoization_witness :
    (runEnrichSchedule exPageDate (enrichTasksOf [[exDatedLink], [exDatedLink]])
        [EnrichAction.startTask 0, EnrichAction.startTask 1,
         EnrichAction.finishTask 0, EnrichAction.finishTask 1]
        enrichInit).attempts.count exDatedLink ≤ 1 :=
  (C2_date_resolution_memoization exPageDate (enrichTasksOf [[exDatedLink], [exDatedLink]])
    [EnrichAction.startTask 0, EnrichAction.startTask 1,
     EnrichAction.finishTask 0, EnrichAction.finishTask 1] exDatedLink).1 (by decide)

/-- C2 counterexample to the claim as stated, for a link occurring in
two seeds' new-link lists (reachable; the C1 counterexample attributes
one link to two seeds) whose date is not in its URL path: when
resolution fails, nothing is memoized and a later task attempts the
link again; and even when the browser-assisted resolution succeeds,
two tasks interleaved at the page-inspection `await` both pass the
memo check before either stores, so the link is attempted twice in one
run. -/
theorem C2_resolution_attempted_twice :
    date_from_url exFailLink = none ∧
    (runEnrichSchedule exPageDate (enrichTasksOf [[exFailLink], [exFailLink]])
        [EnrichAction.startTask 0, EnrichAction.finishTask 0,
         EnrichAction.startTask 1, EnrichAction.finishTask 1]
        enrichInit).attempts.count exFailLink = 2 ∧
    (runEnrichSchedule exPageFound (enrichTasksOf [[exFailLink], [exFailLink]])
        [EnrichAction.startTask 0, EnrichAction.startTask 1,
         EnrichAction.finishTask 0, EnrichAction.finishTask 1]
        enrichInit).attempts.count exFailLink = 2 ∧
    (List.lookup exFailLink
        (runEnrichSchedule exPageFound (enrichTasksOf [[exFailLink], [exFailLink]])
          [EnrichAction.startTask 0, EnrichAction.startTask 1,
           EnrichAction.finishTask 0, EnrichAction.finishTask 1]
          enrichInit).link_dates).isSome = true := by
  refine ⟨by decide, by decide, by decide, by decide⟩

/-! ## Lemmas about the stable descending sort of the writer -/

lemma listContainsSub_nil (cs : List Char) : listContainsSub cs [] = true := by
  cases cs <;> simp [listContainsSub, listStarts]

lemma findAliasKey_mem {e : String} {al : List String} (h : findAliasKey e = some al) :
    al ∈ domain_mapping.map Prod.snd := by
  unfold findAliasKey at h
  split at h
  · next p hp =>
    cases h
    exact List.mem_map_of_mem Prod.snd (List.mem_of_find?_eq_some hp)
  · cases h

lemma table_no_empty_host : ∀ al ∈ domain_mapping.map Prod.snd, al.contains "" = false := by
  decide

/-- C10 counterexample to the claim as stated: the link `"nonsense"`
has no parseable host (empty netloc), yet the domain matcher accepts it
against the unlisted expected domain `"evil.com"`, because the loose
fallback tests `link_domain in expected_domain` and the empty string is
a substring of every string — malformed input does not always make the
matcher return `False`. -/
theorem C10_hostless_link_accepted_loose :
    netloc "nonsense" = "" ∧
    is_link_from_domain "nonsense" "evil.com" = true := by
  refine ⟨by decide, by decide⟩

/-- C10 (corrected).  Totality of the pure helpers: the URL-path date
inference and calendar-date constructor return an optional date for
every input (the embedding of "never raises"), and malformed input
yields `none` from the date functions; the domain matcher rejects a
hostless link whenever the expected domain is in the alias table, but
under the loose fallback a hostless (malformed) link is always
accepted, because the empty host is a substring of every expected
domain. -/
theorem C10_helper_totality (link expected : String) (al : List String) :
    (∀ s : String, date_from_url s = none ∨ ∃ d, date_from_url s = some d) ∧
    (∀ y mo d : Nat, safe_dt y mo d = none ∨ ∃ dt, safe_dt y mo d = some dt) ∧
    date_from_url "https://example.com/articles/alpha" = none ∧
    parse_date_string "not a date at all" = none ∧
    safe_dt 2024 13 40 = none ∧
    is_link_from_domain "nonsense" "www.fortinet.com" = false ∧
    (findAliasKey (pyLower expected) = some al → pyLower (netloc link) = "" →
        is_link_from_domain link expected = false) ∧
    (findAliasKey (pyLower expected) = none → pyLower (netloc link) = "" →
        is_link_from_domain link expected = true) := by
  refine ⟨?_, ?_, by decide, by decide, by decide, by decide, ?_, ?_⟩
  · intro s
    cases h : date_from_url s with
    | none => exact Or.inl rfl
    | some d => exact Or.inr ⟨d, rfl⟩
  · intro y mo d
    cases h : safe_dt y mo d with
    | none => exact Or.inl rfl
    | some dt => exact Or.inr ⟨dt, rfl⟩
  · intro h hempty
    simp only [is_link_from_domain, h, hempty]
    exact table_no_empty_host al (findAliasKey_mem h)
  · intro h hempty
    simp only [is_link_from_domain, h, hempty]
    have h3 : strContainsSub (pyLower expected) "" = true := by
      unfold strContainsSub
      exact listContainsSub_nil _
    rw [h3]
    simp

/-- C10 witness: the strict-table rejection of a hostless link applied
at a genians seed, hypotheses discharged. -/
theorem C10_helper_totality_witness :
    is_link_from_domain "nonsense" "www.genians.co.kr" = false :=
  (C10_helper_totality "nonsense" "www.genians.co.kr"
      ["www.genians.co.kr", "genians.co.kr"]).2.2.2.2.2.2.1 (by decide) (by decide)
